import Mathlib

/-!
Verification development for the lexical-analysis core in `src/lark/lexer.py`.

The Python source is shallowly embedded below.  Text (streams, pattern
values, regexp sources) is modelled as `List Char`; token names are `String`
(Python `str` comparison is code-point lexicographic, matching Lean's order
on `String`).  The host regular-expression engine (Python's `re` module) is
an external collaborator: a compiled regular expression is modelled by its
observable behaviour, namely

 * `matchAt s i`   — the length of the engine's preferred match of the
   pattern anchored at offset `i` of `s` (`re.match(p, s[, pos=i])` /
   `mre.match(stream, pos)`), or `none` when the pattern does not match
   there; the engine never matches past the end of the buffer;
 * `acceptsWhole s` — whether the pattern followed by the end anchor `$`
   matches `s` from offset 0.  Python's `$` accepts the end of the string
   and also the position just before one trailing newline.

A combined alternation `(?P<n1>p1)|(?P<n2>p2)|...` built by `_build_mres`
is matched by Python's engine leftmost-alternative-first: the first
alternative whose own pattern matches at the anchor wins, and
`m.lastindex` recovers its name.  Compilation of such an alternation fails
with `AssertionError` exactly when the total number of capture groups (one
named wrapper per token plus the `groups` capture groups of each pattern
source) exceeds the engine ceiling, which we pass around explicitly as
`ceil` (CPython's limit is 100 and counts every capture group, named or
not).  The matching model reads `lastindex` as the named wrapper of the
winning alternative, which is exact for sources without capture groups of
their own; every matching scenario below uses such sources (a source with
inner groups participates only in compile-failure scenarios — at match
time the real code would fail its `type_from_index` lookup anyway).

Any `LexError` raised during construction, and non-termination of the
fuelled functions, are both collapsed into `Option`: `none` means the
Python call does not return normally.
-/

/-- Streams and regexp sources are lists of characters. -/
abbrev Text := List Char

/-- Behaviour of one compiled regular expression of the host engine. -/
structure ReSem where
  matchAt : Text → Nat → Option Nat
  acceptsWhole : Text → Bool

/-- The closed pattern variant (`PatternStr` / `PatternRE` of `lark.common`,
an external collaborator consumed by `lexer.py`): a literal string or a
regular-expression source.  `value` of a `PatternRE` is its source text
(spec §6: `value_or_source`), `groups` counts the capture groups occurring
in that source, and `sem` is the engine behaviour of the compiled source. -/
inductive Pattern where
  | pstr (value : Text) (flags : List Nat)
  | pre (value : Text) (flags : List Nat) (minW maxW : Nat) (groups : Nat) (sem : ReSem)

/-- `Pattern.value`: the literal text, or the regexp source. -/
def Pattern.value : Pattern → Text
  | .pstr v _ => v
  | .pre v _ _ _ _ _ => v

def Pattern.flags : Pattern → List Nat
  | .pstr _ f => f
  | .pre _ f _ _ _ _ => f

/-- Modelled from the spec: the external pattern interface exposes
`min_width`; a literal consumes exactly its own length. -/
def Pattern.min_width : Pattern → Nat
  | .pstr v _ => v.length
  | .pre _ _ mn _ _ _ => mn

/-- Modelled from the spec: the external pattern interface exposes
`max_width`; a literal consumes exactly its own length. -/
def Pattern.max_width : Pattern → Nat
  | .pstr v _ => v.length
  | .pre _ _ _ mx _ _ => mx

/-- Capture groups contained in the bare pattern source (a literal has
none). -/
def Pattern.groups : Pattern → Nat
  | .pstr _ _ => 0
  | .pre _ _ _ _ g _ => g

/-- Python `re.escape`: every character that is not a letter, digit or
underscore is preceded by a backslash. -/
def reEscape (v : Text) : Text :=
  v.foldr (fun c acc => if c.isAlpha || c.isDigit || c == '_' then c :: acc else '\\' :: c :: acc) []

/-- Modelled from the spec: the external `to_regexp` produces an
engine-native pattern string — the escaped text for a literal, the source
for a regular expression (symbolic flags are carried separately and their
inline wrapping is omitted; every concrete instance below has no flags). -/
def Pattern.to_regexp : Pattern → Text
  | .pstr v _ => reEscape v
  | .pre v _ _ _ _ _ => v

/-- Preferred match of the compiled `to_regexp()` anchored at offset `pos`
(the behaviour of `re.match`).  An escaped literal matches exactly itself. -/
def Pattern.matchAt : Pattern → Text → Nat → Option Nat
  | .pstr v _ => fun s pos => if v.isPrefixOf (s.drop pos) then some v.length else none
  | .pre _ _ _ _ _ sem => sem.matchAt

/-- Match of the compiled `to_regexp() + '$'` against the whole of `s`
(the probe built with `match_whole=True`), returning the length of
`m.group(0)`.  Python's `$` also accepts the position before one trailing
newline, so the escaped literal `v` followed by `$` matches `v` itself and
`v ++ "\n"`. -/
def Pattern.matchWholeAt : Pattern → Text → Option Nat
  | .pstr v _ => fun s => if s == v || s == v ++ ['\n'] then some v.length else none
  | .pre _ _ _ _ _ sem => fun s => if sem.acceptsWhole s then some s.length else none

def Pattern.isStr : Pattern → Bool
  | .pstr _ _ => true
  | .pre _ _ _ _ _ _ => false

/-- `TokenDef` (`lark.common`, consumed at the interface): name, pattern,
priority. -/
structure TokenDef where
  name : String
  pattern : Pattern
  priority : Int

/-- Python's `needle in hay` substring test. -/
def hasSub (needle : Text) : Text → Bool
  | [] => needle.isEmpty
  | c :: t => needle.isPrefixOf (c :: t) || hasSub needle t

/-- `_regexp_has_newline` (lexer.py line 56): textual heuristic on the
pattern source. -/
def regexp_has_newline (r : Text) : Bool :=
  r.contains '\n' || hasSub ['\\', 'n'] r ||
    (hasSub ['(', '?', 's', ')'] r && r.contains '.')

/-- `Token` (lexer.py line 23): a classified, positioned slice of the
input.  In Python a `Token` is itself a `str` whose character content is
`value`. -/
structure Token where
  type : String
  value : Text
  pos_in_stream : Nat
  line : Nat
  column : Nat
deriving DecidableEq

/-- The data carried by `UnexpectedInput` (lexer.py line 11): the
constructor receives the stream and `lex_pos` and stores the position,
a five-character context window, line and column. -/
structure UnexpectedInput where
  lex_pos : Nat
  line : Nat
  column : Nat
  context : Text
deriving DecidableEq

/-- `Token.__eq__` dispatches on whether the other operand is a `Token` or
a plain `str`. -/
inductive StrOrToken where
  | plain (s : Text)
  | tok (t : Token)

/-- `Token.__eq__` (lexer.py line 43): if the other operand is a `Token`
with a different `type`, the result is `False`; otherwise compare as
strings (a `Token`'s string content is its `value`). -/
def Token.pyEq (t : Token) : StrOrToken → Bool
  | .plain s => t.value == s
  | .tok u => if t.type != u.type then false else t.value == u.value

/-! ## Token ordering (lexer.py line 161)

`tokens.sort(key=lambda x: (-x.priority, -x.pattern.max_width, -len(x.pattern.value), x.name))`
— a stable sort under the lexicographic comparison of the key tuple.
`keyLeB a b` decides whether `a`'s key is `≤` `b`'s key; Python's stable
`list.sort` is modelled by Mathlib's (stable) insertion sort. -/

/-- Code-point lexicographic `≤` on strings viewed as character lists
(Python `str` comparison). -/
def strLeB : Text → Text → Bool
  | [], _ => true
  | _ :: _, [] => false
  | a :: as_, b :: bs =>
    if a.toNat < b.toNat then true
    else if b.toNat < a.toNat then false
    else strLeB as_ bs

/-- The sort key comparison of lexer.py line 161: higher priority first,
then wider `max_width`, then longer `pattern.value` (for every token: the
literal's text or the regexp's source), then name. -/
def keyLeB (a b : TokenDef) : Bool :=
  if a.priority ≠ b.priority then decide (b.priority < a.priority)
  else if a.pattern.max_width ≠ b.pattern.max_width then
    decide (b.pattern.max_width < a.pattern.max_width)
  else if a.pattern.value.length ≠ b.pattern.value.length then
    decide (b.pattern.value.length < a.pattern.value.length)
  else strLeB a.name.data b.name.data

/-- `tokens.sort(key=...)` of lexer.py line 161. -/
def sortTokens (tokens : List TokenDef) : List TokenDef :=
  List.insertionSort (fun a b => keyLeB a b = true) tokens

/-! ## Compiled matchers and `_build_mres` (lexer.py lines 94–111) -/

/-- One compiled alternation `(?P<n1>p1)|(?P<n2>p2)|...` together with its
`type_from_index` information: the ordered alternatives themselves, plus
whether each alternative carries the trailing `$` of `match_whole`. -/
structure CompiledMatcher where
  alts : List TokenDef
  match_whole : Bool

/-- Match of one alternative of a compiled alternation at offset `pos`. -/
def altMatch (mw : Bool) (t : TokenDef) (s : Text) (pos : Nat) : Option Nat :=
  if mw then t.pattern.matchWholeAt (s.drop pos) else t.pattern.matchAt s pos

/-- Engine alternation semantics: the first alternative that matches at the
anchor determines `m.lastindex` (hence the token name) and `m.group(0)`
(hence the match length). -/
def matchAlts (mw : Bool) : List TokenDef → Text → Nat → Option (String × Nat)
  | [], _, _ => none
  | t :: ts, s, pos =>
    match altMatch mw t s pos with
    | some n => some (t.name, n)
    | none => matchAlts mw ts s pos

def CompiledMatcher.matchAt (m : CompiledMatcher) (s : Text) (pos : Nat) :
    Option (String × Nat) :=
  matchAlts m.match_whole m.alts s pos

/-- The `for mre, type_from_index in ...` scan shared by `_Lex.lex` and
`unless_callback`: try each compiled matcher in order. -/
def matchMres : List CompiledMatcher → Text → Nat → Option (String × Nat)
  | [], _, _ => none
  | m :: ms, s, pos =>
    match m.matchAt s pos with
    | some r => some r
    | none => matchMres ms s pos

/-- Total capture groups of one combined alternation: one named wrapper per
token plus the groups of each source. -/
def groupCount (batch : List TokenDef) : Nat :=
  (batch.map (fun t => 1 + t.pattern.groups)).sum

/-- Whether `re.compile` of the combined alternation succeeds (no
`AssertionError`): the group count stays within the engine ceiling. -/
def compileOk (ceil : Nat) (batch : List TokenDef) : Bool :=
  groupCount batch ≤ ceil

/-- `_build_mres` (lexer.py line 94): compile `tokens[:max_size]` as one
alternation; on an engine `AssertionError`, `return` the recursive call on
the *remaining* tokens with the batch size halved — note that this
`return` discards the matchers already appended to the local `mres` list
in this run, which the accumulator `acc` models by restarting from `[]`;
on success append the matcher and continue the loop on the remainder.
The Python recursion/loop has no intrinsic termination bound, so it is
driven by explicit fuel: `none` means the call has not returned within
`fuel` loop iterations and recursive calls (in particular, `none` for
every fuel models non-termination). -/
def _build_mres (ceil : Nat) (mw : Bool) :
    Nat → List TokenDef → Nat → List CompiledMatcher → Option (List CompiledMatcher)
  | 0, _, _, _ => none
  | _ + 1, [], _, acc => some acc
  | fuel + 1, t :: ts, maxSize, acc =>
    if compileOk ceil ((t :: ts).take maxSize) then
      _build_mres ceil mw fuel ((t :: ts).drop maxSize) maxSize
        (acc ++ [⟨(t :: ts).take maxSize, mw⟩])
    else _build_mres ceil mw fuel (t :: ts) (maxSize / 2) []

/-- `build_mres` (lexer.py line 110): start with all tokens in one batch
and an empty matcher list. -/
def build_mres (ceil : Nat) (mw : Bool) (fuel : Nat) (tokens : List TokenDef) :
    Option (List CompiledMatcher) :=
  _build_mres ceil mw fuel tokens tokens.length []

/-! ## Ambiguity resolver (lexer.py lines 59–91) -/

/-- The data of one `unless_callback` closure is the `match_whole` matcher
list built from its literal set; applying it (lexer.py line 61) re-tests
the token's value and reclassifies the type on the first anchored hit. -/
def unless_callback (mres : List CompiledMatcher) (t : Token) : Token :=
  match matchMres mres t.value 0 with
  | some (ty, _) => { t with type := ty }
  | none => t

/-- The literal tokens collected into `unless` for one regexp token
(lexer.py lines 80–84): those whose whole value is the preferred match of
the regexp at offset 0 (`m and m.group(0) == s`). -/
def unlessFor (retok : TokenDef) (strs : List TokenDef) : List TokenDef :=
  strs.filter fun st =>
    match retok.pattern.matchAt st.pattern.value 0 with
    | some n => n == st.pattern.value.length
    | none => false

/-- Python `flags <= flags`: subset of symbolic flags. -/
def flagsSubset (a b : List Nat) : Bool := a.all fun f => b.contains f

/-- The members of `embedded_strs` contributed by one regexp token
(lexer.py lines 85–86). -/
def embeddedFor (retok : TokenDef) (strs : List TokenDef) : List TokenDef :=
  (unlessFor retok strs).filter fun st => flagsSubset st.pattern.flags retok.pattern.flags

/-- Build the callback association list of `_create_unless` (lexer.py
lines 87–88), one entry per regexp token with a non-empty `unless` set;
`none` if some inner `build_mres` does not return. -/
def buildCallbacks (ceil fuel : Nat) (strs : List TokenDef) :
    List TokenDef → Option (List (String × List CompiledMatcher))
  | [] => some []
  | r :: rs =>
    match buildCallbacks ceil fuel strs rs with
    | none => none
    | some cbs =>
      match unlessFor r strs with
      | [] => some cbs
      | u => match build_mres ceil true fuel u with
             | none => none
             | some mres => some ((r.name, mres) :: cbs)

/-- `_create_unless` (lexer.py line 73): classify tokens by pattern kind
(order-preserving), attach an `unless` callback to each regexp token that
fully covers some literal, and drop the literals that are embedded into a
regexp token with compatible flags.  Token names are assumed unique (spec
§3 invariant), so the identity-based `t not in embedded_strs` filter is
modelled by name. -/
def create_unless (ceil fuel : Nat) (tokens : List TokenDef) :
    Option (List TokenDef × List (String × List CompiledMatcher)) :=
  let strs := tokens.filter fun t => t.pattern.isStr
  let res := tokens.filter fun t => !t.pattern.isStr
  let embeddedNames := (res.map fun r => (embeddedFor r strs).map (·.name)).flatten
  match buildCallbacks ceil fuel strs res with
  | none => none
  | some cb => some (tokens.filter (fun t => !(embeddedNames.contains t.name)), cb)

/-! ## LineCounter (lexer.py line 114) -/

structure LineCounter where
  char_pos : Nat
  line : Nat
  column : Nat
  line_start_pos : Nat
deriving DecidableEq

/-- Index of the last occurrence of a character (`str.rindex`); only
consulted when at least one occurrence exists. -/
def lastIndexOf (c : Char) : Text → Option Nat
  | [] => none
  | x :: xs =>
    match lastIndexOf c xs with
    | some i => some (i + 1)
    | none => if x == c then some 0 else none

/-- `LineCounter.feed` (lexer.py line 122).  `line_start_pos` never exceeds
the updated `char_pos` (the last newline lies inside the consumed text), so
the natural-number subtraction in `column` equals Python's integer
subtraction. -/
def LineCounter.feed (lc : LineCounter) (token : Text) (test_newline : Bool) : LineCounter :=
  let lc1 :=
    if test_newline then
      let newlines := token.count '\n'
      if newlines != 0 then
        { lc with
          line := lc.line + newlines,
          line_start_pos :=
            lc.char_pos + (match lastIndexOf '\n' token with | some i => i | none => 0) + 1 }
      else lc
    else lc
  { lc1 with
    char_pos := lc.char_pos + token.length,
    column := lc.char_pos + token.length - lc1.line_start_pos }

/-! ## Lexer construction (lexer.py line 138) -/

structure Lexer where
  tokens : List TokenDef
  mres : List CompiledMatcher
  callback : List (String × List CompiledMatcher)
  newline_types : List String
  ignore_types : List String

/-- `Lexer.__init__` (lexer.py line 139): sanitize (each pattern must
compile alone — fails when its own groups already exceed the engine
ceiling — and must not be zero-width), check `ignore` against the declared
names, record the newline-heuristic types, sort, resolve ambiguity, and
compile the matchers.  `none` models any `LexError`/`AssertionError`
escape or non-termination of `_build_mres`. -/
def mkLexer (ceil fuel : Nat) (tokens : List TokenDef) (ignore : List String) : Option Lexer :=
  if tokens.any (fun t => decide (ceil < t.pattern.groups)) then none
  else if tokens.any (fun t => t.pattern.min_width == 0) then none
  else if !(ignore.all fun n => (tokens.map (·.name)).contains n) then none
  else
    let newline_types := (tokens.filter fun t => regexp_has_newline t.pattern.to_regexp).map (·.name)
    match create_unless ceil fuel (sortTokens tokens) with
    | none => none
    | some (toks, cb) =>
      match build_mres ceil false fuel toks with
      | none => none
      | some mres => some ⟨toks, mres, cb, newline_types, ignore⟩

/-! ## The streaming core `_Lex.lex` (lexer.py line 209)

The generator is modelled as a fuelled loop producing the list of yielded
tokens followed by `none` (the loop fell off the end of the stream) or
`some e` (it raised `UnexpectedInput e`).  The outer `Option` is the fuel
guard: `none` means the loop did not finish within `fuel` iterations —
with the progress invariant (`min_width ≥ 1`) `stream.length + 1`
iterations always suffice.  `getLexer k` is the value of `self.lexer` read
at the top of the `while` iteration after `k` tokens have been yielded:
for a plain `Lexer` it is constant, for a `ContextualLexer` the consumer
rebinds it between yields (lexer.py line 206). -/

/-- One iteration of the `while True` body of `_Lex.lex`. -/
inductive StepResult where
  | emit (t : Token) (lc : LineCounter)
  | skip (lc : LineCounter)
  | error (e : UnexpectedInput)
  | done

/-- One iteration of `_Lex.lex` (lexer.py lines 220–237): try the compiled
matchers at the current offset; on a match either yield a (possibly
callback-reclassified) token or suppress an ignored type, feeding the
line counter either way; on no match, raise if input remains, else stop. -/
def lexStep (lexer : Lexer) (newline_types ignore_types : List String)
    (stream : Text) (lc : LineCounter) : StepResult :=
  match matchMres lexer.mres stream lc.char_pos with
  | some (ty, n) =>
    let value := (stream.drop lc.char_pos).take n
    if ignore_types.contains ty then
      .skip (lc.feed value (newline_types.contains ty))
    else
      let t : Token := ⟨ty, value, lc.char_pos, lc.line, lc.column⟩
      let t :=
        match lexer.callback.lookup ty with
        | some m => unless_callback m t
        | none => t
      .emit t (lc.feed value (newline_types.contains ty))
  | none =>
    if lc.char_pos < stream.length then
      .error ⟨lc.char_pos, lc.line, lc.column, (stream.drop lc.char_pos).take 5⟩
    else .done

/-- The fuelled `while True` loop of `_Lex.lex`; `acc` holds the tokens
yielded so far and `k` counts them. -/
def lexLoop (getLexer : Nat → Lexer) (newline_types ignore_types : List String)
    (stream : Text) : Nat → LineCounter → Nat → List Token →
    Option (List Token × Option UnexpectedInput)
  | 0, _, _, _ => none
  | fuel + 1, lc, k, acc =>
    match lexStep (getLexer k) newline_types ignore_types stream lc with
    | .skip lc2 => lexLoop getLexer newline_types ignore_types stream fuel lc2 k acc
    | .emit t lc2 => lexLoop getLexer newline_types ignore_types stream fuel lc2 (k + 1) (acc ++ [t])
    | .error e => some (acc, some e)
    | .done => some (acc, none)

/-- A fresh `LineCounter` (start of a session). -/
def lc0 : LineCounter := ⟨0, 1, 0, 0⟩

/-- `Lexer.lex` (lexer.py line 170): one session over a fixed lexer. -/
def Lexer.lex (lx : Lexer) (stream : Text) : Option (List Token × Option UnexpectedInput) :=
  lexLoop (fun _ => lx) lx.newline_types lx.ignore_types stream (stream.length + 1) lc0 0 []

/-- `ContextualLexer.lex` (lexer.py line 202): the member lexer of the
current parser state is re-read after every yielded token (`states k` is
the value of `parser_state` while the `(k+1)`-st token is being matched;
the consumer's `set_parser_state` between tokens is the update from
`states k` to `states (k+1)`), while newline/ignore configuration comes
from the root lexer for the whole session. -/
def contextual_lex {σ : Type} (lexers : σ → Lexer) (root : Lexer) (states : Nat → σ)
    (stream : Text) : Option (List Token × Option UnexpectedInput) :=
  lexLoop (fun k => lexers (states k)) root.newline_types root.ignore_types stream
    (stream.length + 1) lc0 0 []

/-! ## Concrete token definitions used by the claims -/

/-- `a`–`z` test used by the concrete `[a-z]+` semantics. -/
def isLowerAZ (c : Char) : Bool := 97 ≤ c.toNat && c.toNat ≤ 122

/-- Length of the maximal prefix satisfying `p`. -/
def runLen (p : Char → Bool) : Text → Nat
  | [] => 0
  | c :: cs => if p c then runLen p cs + 1 else 0

/-- Engine behaviour of `[a-z]+`: greedy, so the preferred match at an
offset is the maximal run of lowercase letters there (none if empty);
with the `$` anchor it accepts a non-empty all-lowercase string,
optionally followed by the one trailing newline `$` tolerates. -/
def identSem : ReSem where
  matchAt := fun s pos =>
    match runLen isLowerAZ (s.drop pos) with
    | 0 => none
    | n + 1 => some (n + 1)
  acceptsWhole := fun s =>
    let core := if s.getLast? == some '\n' then s.dropLast else s
    !core.isEmpty && core.all isLowerAZ

/-- `IDENT = [a-z]+`, priority 0 (the spec's literal-disambiguation
scenario).  `max_width` of an unbounded repetition is the engine's
`MAXREPEAT`. -/
def identTok : TokenDef := ⟨"IDENT", .pre "[a-z]+".data [] 1 4294967295 0 identSem, 0⟩

/-- `IF = "if"`, priority 0. -/
def ifTok : TokenDef := ⟨"IF", .pstr "if".data [], 0⟩

/-- Priority-over-length scenario: token `A`, priority 10, matching `"if"`. -/
def prioATok : TokenDef := ⟨"A", .pstr "if".data [], 10⟩

/-- Priority-over-length scenario: token `B`, priority 5, matching `"ifx"`. -/
def prioBTok : TokenDef := ⟨"B", .pstr "ifx".data [], 5⟩

/-- Python's `\s` character test (`str` whitespace class of `re`). -/
def isPySpace (c : Char) : Bool :=
  c == ' ' || c == '\t' || c == '\n' || c == '\r' || c == '\x0b' || c == '\x0c'

/-- Engine behaviour of `\s`: one whitespace character — in particular it
matches the newline character itself. -/
def wsSem : ReSem where
  matchAt := fun s pos =>
    match s.drop pos with
    | c :: _ => if isPySpace c then some 1 else none
    | [] => none
  acceptsWhole := fun s =>
    match s with
    | [c] => isPySpace c
    | [c, d] => isPySpace c && d == '\n'
    | _ => false

/-- `WS = \s` : a pattern whose source is the two characters `\` `s`. -/
def wsTok : TokenDef := ⟨"WS", .pre ['\\', 's'] [] 1 1 0 wsSem, 0⟩

/-- Characters of the class `[x\n]`. -/
def isXorNl (c : Char) : Bool := c == 'x' || c == '\n'

/-- Engine behaviour of `[x\n]+` (greedy). -/
def xnlSem : ReSem where
  matchAt := fun s pos =>
    match runLen isXorNl (s.drop pos) with
    | 0 => none
    | n + 1 => some (n + 1)
  acceptsWhole := fun s => !s.isEmpty && s.all isXorNl

/-- `R = [x\n]+`, priority 10. -/
def xnlTok : TokenDef := ⟨"R", .pre ['[', 'x', '\\', 'n', ']', '+'] [] 1 4294967295 0 xnlSem, 10⟩

/-- `L1 = "x"`, priority 5. -/
def l1Tok : TokenDef := ⟨"L1", .pstr ['x'] [], 5⟩

/-- `L2 = "x\n"`, priority 0. -/
def l2Tok : TokenDef := ⟨"L2", .pstr ['x', '\n'] [], 0⟩

/-- A pattern source that already contains 100 capture groups of its own:
wrapped in the named group of a combined matcher it exceeds a ceiling of
100 even as a batch of one. -/
def hundredGroupsTok : TokenDef := ⟨"G", .pre ['g'] [] 1 1 100 ⟨fun _ _ => none, fun _ => false⟩, 0⟩

/-- Literal `a` (contextual-lexing scenario, state `S1`). -/
def litATok : TokenDef := ⟨"A", .pstr ['a'] [], 0⟩

/-- Literal `b` (contextual-lexing scenario, state `S2`). -/
def litBTok : TokenDef := ⟨"B", .pstr ['b'] [], 0⟩

/-- Regex token whose source is 10 characters long but whose widest match
is 2 (`[a-c][a-c]`), used for the sort-order analysis. -/
def abcSem : ReSem where
  matchAt := fun s pos =>
    match s.drop pos with
    | c :: d :: _ => if ('a' ≤ c && c ≤ 'c') && ('a' ≤ d && d ≤ 'c') then some 2 else none
    | _ => none
  acceptsWhole := fun s =>
    match s with
    | [c, d] => ('a' ≤ c && c ≤ 'c') && ('a' ≤ d && d ≤ 'c')
    | _ => false

/-- `Z = [a-c][a-c]` (regex, priority 0): source length 10, `max_width` 2. -/
def zReTok : TokenDef := ⟨"Z", .pre "[a-c][a-c]".data [] 2 2 0 abcSem, 0⟩

/-- `A = "ab"` (literal, priority 0): value length 2, `max_width` 2. -/
def abLitTok : TokenDef := ⟨"A", .pstr "ab".data [], 0⟩

/-! ## Helper lemmas: totality and transitivity of the sort key order -/

theorem strLeB_total : ∀ a b : Text, strLeB a b = true ∨ strLeB b a = true
  | [], _ => Or.inl rfl
  | _ :: _, [] => Or.inr rfl
  | x :: xs, y :: ys => by
    by_cases h1 : x.toNat < y.toNat
    · exact Or.inl (by simp [strLeB, h1])
    · by_cases h2 : y.toNat < x.toNat
      · exact Or.inr (by simp [strLeB, h2])
      · rcases strLeB_total xs ys with h | h
        · exact Or.inl (by simp [strLeB, h1, h2, h])
        · exact Or.inr (by simp [strLeB, h1, h2, h])

theorem strLeB_trans : ∀ a b c : Text,
    strLeB a b = true → strLeB b c = true → strLeB a c = true
  | [], _, _, _, _ => rfl
  | _ :: _, [], _, h, _ => by simp [strLeB] at h
  | _ :: _, _ :: _, [], _, h => by simp [strLeB] at h
  | x :: xs, y :: ys, z :: zs, h1, h2 => by
    simp only [strLeB] at h1 h2 ⊢
    split_ifs at h1 h2 ⊢ with hxy hyx hyz hzy hxz hzx
    all_goals simp_all
    all_goals try omega
    exact strLeB_trans xs ys zs h1 h2

/-- One level of Python's tuple comparison: transitivity. -/
theorem lexLevel_trans {α : Type} [LinearOrder α] {x y z : α} {r1 r2 r3 : Bool}
    (h1 : (if x ≠ y then decide (y < x) else r1) = true)
    (h2 : (if y ≠ z then decide (z < y) else r2) = true)
    (ih : r1 = true → r2 = true → r3 = true) :
    (if x ≠ z then decide (z < x) else r3) = true := by
  by_cases e1 : x = y
  · by_cases e2 : y = z
    · rw [if_neg fun h => h e1] at h1
      rw [if_neg fun h => h e2] at h2
      rw [if_neg fun h => h (e1.trans e2)]
      exact ih h1 h2
    · rw [if_pos e2] at h2
      have hzx : z < x := by rw [e1]; exact of_decide_eq_true h2
      rw [if_pos (show x ≠ z from fun h => absurd hzx (h ▸ lt_irrefl x))]
      exact decide_eq_true hzx
  · rw [if_pos e1] at h1
    have hyx : y < x := of_decide_eq_true h1
    by_cases e2 : y = z
    · have hzx : z < x := e2 ▸ hyx
      rw [if_pos (show x ≠ z from fun h => absurd hzx (h ▸ lt_irrefl x))]
      exact decide_eq_true hzx
    · rw [if_pos e2] at h2
      have hzx : z < x := lt_trans (of_decide_eq_true h2) hyx
      rw [if_pos (show x ≠ z from fun h => absurd hzx (h ▸ lt_irrefl x))]
      exact decide_eq_true hzx

/-- One level of Python's tuple comparison: totality. -/
theorem lexLevel_total {α : Type} [LinearOrder α] (x y : α) (r1 r2 : Bool)
    (h : r1 = true ∨ r2 = true) :
    (if x ≠ y then decide (y < x) else r1) = true ∨
      (if y ≠ x then decide (x < y) else r2) = true := by
  by_cases e : x = y
  · subst e
    simpa using h
  · rcases lt_or_gt_of_ne e with hlt | hgt
    · exact Or.inr (by simp [Ne.symm e, hlt])
    · exact Or.inl (by simp [e, hgt])

theorem keyLeB_total (a b : TokenDef) : keyLeB a b = true ∨ keyLeB b a = true := by
  unfold keyLeB
  exact lexLevel_total _ _ _ _ (lexLevel_total _ _ _ _ (lexLevel_total _ _ _ _
    (strLeB_total a.name.data b.name.data)))

theorem keyLeB_trans (a b c : TokenDef) (h1 : keyLeB a b = true) (h2 : keyLeB b c = true) :
    keyLeB a c = true := by
  unfold keyLeB at h1 h2 ⊢
  refine lexLevel_trans h1 h2 fun g1 g2 => ?_
  refine lexLevel_trans g1 g2 fun f1 f2 => ?_
  refine lexLevel_trans f1 f2 fun e1 e2 => ?_
  exact strLeB_trans _ _ _ e1 e2

/-- The order actually used by `tokens.sort` at lexer.py line 161. -/
def keyLe (a b : TokenDef) : Prop := keyLeB a b = true

instance : DecidableRel keyLe := fun a b => decEq _ _

instance : IsTotal TokenDef keyLe := ⟨keyLeB_total⟩

instance : IsTrans TokenDef keyLe := ⟨keyLeB_trans⟩

/-! ## Claim C10 — Token equality -/

/-- C10: `Token.__eq__` ignores the `type` field unless both operands are
`Token`s: against a plain string, a `Token` compares equal exactly when the
character content coincides, regardless of its type; against another
`Token`, equality holds exactly when both the types and the character
content coincide (positions are never consulted). -/
theorem C10_token_equality :
    (∀ (t : Token) (s : Text), t.pyEq (.plain s) = true ↔ t.value = s) ∧
    (∀ (t u : Token), t.pyEq (.tok u) = true ↔ t.type = u.type ∧ t.value = u.value) := by
  constructor
  · intro t s
    simp [Token.pyEq]
  · intro t u
    by_cases h : t.type = u.type
    · simp [Token.pyEq, h]
    · simp [Token.pyEq, bne_iff_ne, h]

/-! ## Claim C4 — the token sort order -/

/-- The token order as the spec words it (§3 invariant, claim C4): higher
priority first; on tie, wider `max_width` first; on tie, longer literal
value first with this tie-break applied to literal tokens only (a
comparison involving a non-literal token skips it); on tie, lexicographic
name order. -/
def specKeyLeB (a b : TokenDef) : Bool :=
  if a.priority ≠ b.priority then decide (b.priority < a.priority)
  else if a.pattern.max_width ≠ b.pattern.max_width then
    decide (b.pattern.max_width < a.pattern.max_width)
  else if a.pattern.isStr = true ∧ b.pattern.isStr = true ∧
      a.pattern.value.length ≠ b.pattern.value.length then
    decide (b.pattern.value.length < a.pattern.value.length)
  else strLeB a.name.data b.name.data

/-- Sorting under the spec's wording of the order. -/
def specSortTokens (tokens : List TokenDef) : List TokenDef :=
  List.insertionSort (fun a b => specKeyLeB a b = true) tokens

/-- C4 is false as stated: the code's sort key applies
`-len(x.pattern.value)` to every token, literal or not (for a regexp token
the length of its source string).  With the literal `A = "ab"` and the
regexp `Z = [a-c][a-c]` — equal priority 0, equal `max_width` 2 — the code
orders `Z` before `A` (source length 10 beats value length 2), while the
order claimed by the spec (length tie-break for literals only, then name
order) puts `A` first. -/
theorem C4_counterexample :
    (sortTokens [abLitTok, zReTok]).map (·.name) = ["Z", "A"] ∧
    (specSortTokens [abLitTok, zReTok]).map (·.name) = ["A", "Z"] ∧
    abLitTok.priority = zReTok.priority ∧
    abLitTok.pattern.max_width = zReTok.pattern.max_width ∧
    abLitTok.pattern.isStr = true ∧ zReTok.pattern.isStr = false := by
  refine ⟨rfl, rfl, rfl, rfl, rfl, rfl⟩

/-- C4 (amended): the token order computed at `Lexer` construction is the
stable sort of the token list under the total order: higher priority
first; on equal priority, wider `max_width` first; on a further tie,
longer `pattern.value` string first — for every token, taking the literal
text of a literal and the regexp source of a regex token, not for literals
only; on a further tie, lexicographic token-name order. -/
theorem C4_token_order_amended (l : List TokenDef) :
    (sortTokens l).Perm l ∧ List.Sorted keyLe (sortTokens l) :=
  ⟨List.perm_insertionSort keyLe l, List.sorted_insertionSort keyLe l⟩

/-! ## Helper lemmas: `_build_mres` output shape and alternation semantics -/

/-- Every matcher of a successful run carries the requested
`match_whole` mode (given that the already-accumulated ones do). -/
theorem _build_mres_mw : ∀ (fuel ceil : Nat) (mw : Bool) (tokens : List TokenDef)
    (maxSize : Nat) (acc mres : List CompiledMatcher),
    (∀ m ∈ acc, m.match_whole = mw) →
    _build_mres ceil mw fuel tokens maxSize acc = some mres →
    ∀ m ∈ mres, m.match_whole = mw := by
  intro fuel
  induction fuel with
  | zero => intro ceil mw tokens maxSize acc mres hacc h; exact absurd h (by simp [_build_mres])
  | succ fuel ih =>
    intro ceil mw tokens maxSize acc mres hacc h
    match tokens with
    | [] =>
      simp only [_build_mres, Option.some.injEq] at h
      subst h
      exact hacc
    | t :: ts =>
      rw [_build_mres] at h
      split at h
      · refine ih ceil mw _ maxSize _ mres ?_ h
        intro m hm
        rcases List.mem_append.mp hm with hm1 | hm2
        · exact hacc m hm1
        · rcases List.mem_cons.mp hm2 with rfl | h3
          · rfl
          · exact absurd h3 (List.not_mem_nil m)
      · refine ih ceil mw _ _ [] mres ?_ h
        intro m hm
        exact absurd hm (List.not_mem_nil m)

/-- Shape of a successful run: either no mid-run group-limit failure ever
occurred and the concatenated alternatives extend the accumulated ones
with the whole token list, or some failure occurred — its `return`
silently drops every matcher already built — and the concatenated
alternatives are a suffix of the token list. -/
theorem _build_mres_suffix : ∀ (fuel ceil : Nat) (mw : Bool) (tokens : List TokenDef)
    (maxSize : Nat) (acc mres : List CompiledMatcher),
    _build_mres ceil mw fuel tokens maxSize acc = some mres →
    (mres.map (·.alts)).flatten = (acc.map (·.alts)).flatten ++ tokens ∨
      ∃ j, (mres.map (·.alts)).flatten = tokens.drop j := by
  intro fuel
  induction fuel with
  | zero => intro ceil mw tokens maxSize acc mres h; exact absurd h (by simp [_build_mres])
  | succ fuel ih =>
    intro ceil mw tokens maxSize acc mres h
    match tokens with
    | [] =>
      simp only [_build_mres, Option.some.injEq] at h
      subst h
      exact Or.inl (by simp)
    | t :: ts =>
      rw [_build_mres] at h
      split at h
      · rcases ih ceil mw ((t :: ts).drop maxSize) maxSize _ mres h with h1 | ⟨j, hj⟩
        · left
          rw [h1]
          simp only [List.map_append, List.flatten_append, List.map_cons, List.map_nil,
            List.flatten_cons, List.flatten_nil, List.append_nil, List.append_assoc]
          rw [List.take_append_drop]
        · right
          exact ⟨j + maxSize, by rw [hj, List.drop_drop, Nat.add_comm]⟩
      · rcases ih ceil mw (t :: ts) (maxSize / 2) [] mres h with h1 | ⟨j, hj⟩
        · right
          exact ⟨0, by simpa using h1⟩
        · right
          exact ⟨j, hj⟩

/-- With no capture groups inside any pattern source, a combined
alternation costs exactly one group per alternative. -/
theorem groupCount_eq_length : ∀ (batch : List TokenDef),
    (∀ t ∈ batch, t.pattern.groups = 0) → groupCount batch = batch.length
  | [], _ => rfl
  | t :: ts, h => by
    have ht := h t (List.mem_cons_self t ts)
    have hts := fun u hu => h u (List.mem_cons_of_mem t hu)
    have ihts := groupCount_eq_length ts hts
    simp only [groupCount, List.map_cons, List.sum_cons, ht, List.length_cons] at ihts ⊢
    omega

/-- When every token's own pattern source carries no capture groups (so
an alternation compiles exactly when its batch is small enough), a batch
never fails after an earlier batch of the same run succeeded, no matcher
is ever dropped, and the concatenated alternatives reproduce the token
list exactly. -/
theorem _build_mres_full : ∀ (fuel ceil : Nat) (mw : Bool) (tokens : List TokenDef)
    (maxSize : Nat) (acc mres : List CompiledMatcher),
    (∀ t ∈ tokens, t.pattern.groups = 0) →
    (acc = [] ∨ min maxSize tokens.length ≤ ceil) →
    _build_mres ceil mw fuel tokens maxSize acc = some mres →
    (mres.map (·.alts)).flatten = (acc.map (·.alts)).flatten ++ tokens := by
  intro fuel
  induction fuel with
  | zero =>
    intro ceil mw tokens maxSize acc mres hg hinv h
    exact absurd h (by simp [_build_mres])
  | succ fuel ih =>
    intro ceil mw tokens maxSize acc mres hg hinv h
    match tokens with
    | [] =>
      simp only [_build_mres, Option.some.injEq] at h
      subst h
      simp
    | t :: ts =>
      have hgtake : ∀ u ∈ (t :: ts).take maxSize, u.pattern.groups = 0 :=
        fun u hu => hg u (List.mem_of_mem_take hu)
      have hcount : groupCount ((t :: ts).take maxSize) = min maxSize (t :: ts).length := by
        rw [groupCount_eq_length _ hgtake, List.length_take]
      rw [_build_mres] at h
      split at h
      · rename_i hc
        have hle : min maxSize (t :: ts).length ≤ ceil := by
          have := of_decide_eq_true hc
          rwa [hcount] at this
        have hrec := ih ceil mw ((t :: ts).drop maxSize) maxSize
          (acc ++ [⟨(t :: ts).take maxSize, mw⟩]) mres
          (fun u hu => hg u (List.mem_of_mem_drop hu))
          (Or.inr (by
            rw [List.length_drop]
            omega))
          h
        rw [hrec]
        simp only [List.map_append, List.flatten_append, List.map_cons, List.map_nil,
          List.flatten_cons, List.flatten_nil, List.append_nil, List.append_assoc]
        rw [List.take_append_drop]
      · rename_i hc
        have hgt : ¬ min maxSize (t :: ts).length ≤ ceil := by
          intro hcontra
          exact hc (decide_eq_true (hcount ▸ hcontra))
        rcases hinv with rfl | hle
        · have hrec := ih ceil mw (t :: ts) (maxSize / 2) [] mres hg (Or.inl rfl) h
          simpa using hrec
        · exact absurd hle hgt

/-- Alternation alternatives are tried left to right across a
concatenation. -/
theorem matchAlts_append (mw : Bool) (l₁ l₂ : List TokenDef) (s : Text) (pos : Nat) :
    matchAlts mw (l₁ ++ l₂) s pos =
      (match matchAlts mw l₁ s pos with
       | some r => some r
       | none => matchAlts mw l₂ s pos) := by
  induction l₁ with
  | nil => rfl
  | cons t ts ih =>
    simp only [List.cons_append, matchAlts]
    cases altMatch mw t s pos with
    | some n => rfl
    | none => simpa using ih

/-- Trying a list of compiled matchers in order is the same as one big
alternation over the concatenation of their alternatives. -/
theorem matchMres_flatten (mw : Bool) : ∀ (mres : List CompiledMatcher) (s : Text) (pos : Nat),
    (∀ m ∈ mres, m.match_whole = mw) →
    matchMres mres s pos = matchAlts mw ((mres.map (·.alts)).flatten) s pos := by
  intro mres
  induction mres with
  | nil => intro s pos _; rfl
  | cons m ms ih =>
    intro s pos h
    have hm : m.match_whole = mw := h m (List.mem_cons_self m ms)
    have hms : ∀ m2 ∈ ms, m2.match_whole = mw := fun m2 h2 => h m2 (List.mem_cons_of_mem m h2)
    simp only [List.map_cons, List.flatten_cons, matchAlts_append, matchMres,
      CompiledMatcher.matchAt, hm, ih s pos hms]

/-- Two lexers whose matcher lists expose the same concatenated
alternatives take identical single steps. -/
theorem lexStep_congr (lx₁ lx₂ : Lexer) (nl ig : List String) (stream : Text) (lc : LineCounter)
    (hcb : lx₁.callback = lx₂.callback)
    (hm : ∀ s pos, matchMres lx₁.mres s pos = matchMres lx₂.mres s pos) :
    lexStep lx₁ nl ig stream lc = lexStep lx₂ nl ig stream lc := by
  unfold lexStep
  rw [hm, hcb]

/-- The streaming loop is determined by the per-position step behaviour of
the active lexers. -/
theorem lexLoop_congr : ∀ (fuel : Nat) (g₁ g₂ : Nat → Lexer) (nl ig : List String)
    (stream : Text) (lc : LineCounter) (k : Nat) (acc : List Token),
    (∀ j lc2, lexStep (g₁ j) nl ig stream lc2 = lexStep (g₂ j) nl ig stream lc2) →
    lexLoop g₁ nl ig stream fuel lc k acc = lexLoop g₂ nl ig stream fuel lc k acc := by
  intro fuel
  induction fuel with
  | zero => intro _ _ _ _ _ _ _ _ _; rfl
  | succ fuel ih =>
    intro g₁ g₂ nl ig stream lc k acc h
    simp only [lexLoop, h k lc]
    cases lexStep (g₂ k) nl ig stream lc with
    | skip lc2 => exact ih g₁ g₂ nl ig stream lc2 k acc h
    | emit t lc2 => exact ih g₁ g₂ nl ig stream lc2 (k + 1) (acc ++ [t]) h
    | error e => rfl
    | done => rfl

/-! ## Claim C3 — group-limit degradation is transparent -/

/-- The two-matcher lexer produced for `{A, B}` under a group ceiling of 1. -/
def splitLexer : Lexer :=
  ⟨[prioATok, prioBTok], [⟨[prioATok], false⟩, ⟨[prioBTok], false⟩], [], [], []⟩

/-- The single-matcher lexer produced for `{A, B}` under a comfortable
group ceiling. -/
def oneLexer : Lexer :=
  ⟨[prioATok, prioBTok], [⟨[prioATok, prioBTok], false⟩], [], [], []⟩

/-- Regex token `C` whose source carries 2 capture groups of its own. -/
def cGroupsTok : TokenDef := ⟨"C", .pre ['c'] [] 1 1 2 ⟨fun _ _ => none, fun _ => false⟩, 0⟩

/-- Regex token `D` whose source carries 2 capture groups of its own. -/
def dGroupsTok : TokenDef := ⟨"D", .pre ['d'] [] 1 1 2 ⟨fun _ _ => none, fun _ => false⟩, 0⟩

/-- C3 is false as stated: when a batch fails the group limit *after* an
earlier batch of the same run succeeded (possible when pattern sources
carry their own capture groups), the `return` inside the `while` loop
discards the matchers already appended to `mres`.  Under a ceiling of 4,
the list `[A, B, C, D]` with `C`, `D` costing 3 groups each compiles
`[A, B]` as a first matcher at batch size 2, then the failing batch
`[C, D]` throws that matcher away and restarts on `[C, D]` alone — the
result `[[C], [D]]` loses tokens `A` and `B` instead of reproducing the
token list. -/
theorem C3_counterexample :
    build_mres 4 false 20 [prioATok, prioBTok, cGroupsTok, dGroupsTok] =
      some [⟨[cGroupsTok], false⟩, ⟨[dGroupsTok], false⟩] ∧
    compileOk 4 [prioATok, prioBTok] = true ∧
    (([⟨[cGroupsTok], false⟩, ⟨[dGroupsTok], false⟩] : List CompiledMatcher).map
        (·.alts)).flatten.map (·.name) = ["C", "D"] ∧
    ([prioATok, prioBTok, cGroupsTok, dGroupsTok].map (·.name) = ["A", "B", "C", "D"] ∧
      (["C", "D"] : List String) ≠ ["A", "B", "C", "D"]) :=
  ⟨rfl, rfl, by decide, by decide, by decide⟩

/-- C3 (amended): the concatenated alternatives of a successful
compilation always form a suffix of the token list — a mid-run
group-limit failure silently drops the matchers already built in that
run, losing a prefix of the tokens.  When no token's pattern source
carries capture groups of its own (every alternative costs exactly one
group, the intended regime), no such drop can happen: the concatenation
reproduces the token list exactly, in order, with every matcher in the
requested mode.  Consequently two lexers agreeing on callbacks and
configuration whose matcher lists concatenate to the same alternatives —
e.g. a group-limited multi-matcher compilation versus a single-matcher
one — produce identical token sequences on every input. -/
theorem C3_group_limit_refinement_amended :
    (∀ (ceil : Nat) (mw : Bool) (fuel : Nat) (tokens : List TokenDef) (maxSize : Nat)
       (mres : List CompiledMatcher),
       _build_mres ceil mw fuel tokens maxSize [] = some mres →
       ∃ j, (mres.map (·.alts)).flatten = tokens.drop j) ∧
    (∀ (ceil : Nat) (mw : Bool) (fuel : Nat) (tokens : List TokenDef)
       (mres : List CompiledMatcher),
       (∀ t ∈ tokens, t.pattern.groups = 0) →
       build_mres ceil mw fuel tokens = some mres →
       (mres.map (·.alts)).flatten = tokens ∧ ∀ m ∈ mres, m.match_whole = mw) ∧
    (∀ (lx₁ lx₂ : Lexer) (stream : Text),
       lx₁.callback = lx₂.callback →
       lx₁.newline_types = lx₂.newline_types →
       lx₁.ignore_types = lx₂.ignore_types →
       (∀ m ∈ lx₁.mres, m.match_whole = false) →
       (∀ m ∈ lx₂.mres, m.match_whole = false) →
       (lx₁.mres.map (·.alts)).flatten = (lx₂.mres.map (·.alts)).flatten →
       lx₁.lex stream = lx₂.lex stream) := by
  refine ⟨?_, ?_, ?_⟩
  · intro ceil mw fuel tokens maxSize mres h
    rcases _build_mres_suffix fuel ceil mw tokens maxSize [] mres h with h1 | hj
    · exact ⟨0, by simpa using h1⟩
    · exact hj
  · intro ceil mw fuel tokens mres hg h
    constructor
    · have := _build_mres_full fuel ceil mw tokens tokens.length [] mres hg (Or.inl rfl) h
      simpa using this
    · exact _build_mres_mw fuel ceil mw tokens tokens.length [] mres
        (fun m hm => absurd hm (List.not_mem_nil m)) h
  · intro lx₁ lx₂ stream hcb hnl hig hw₁ hw₂ hflat
    have hm : ∀ s pos, matchMres lx₁.mres s pos = matchMres lx₂.mres s pos := by
      intro s pos
      rw [matchMres_flatten false lx₁.mres s pos hw₁, matchMres_flatten false lx₂.mres s pos hw₂,
        hflat]
    unfold Lexer.lex
    rw [hnl, hig]
    exact lexLoop_congr (stream.length + 1) (fun _ => lx₁) (fun _ => lx₂) lx₂.newline_types
      lx₂.ignore_types stream lc0 0 []
      (fun j lc2 => lexStep_congr lx₁ lx₂ lx₂.newline_types lx₂.ignore_types stream lc2 hcb hm)

/-- Witness for the amended C3: under a group ceiling of 1 the group-free
token set `{A, B}` compiles into two matchers whose alternatives
concatenate back to `[A, B]`, and the resulting lexer produces on `"ifx"`
the same output as the single-matcher lexer a larger ceiling yields. -/
theorem C3_group_limit_refinement_amended_witness :
    ((build_mres 1 false 10 [prioATok, prioBTok] = some splitLexer.mres ∧
        (splitLexer.mres.map (·.alts)).flatten = [prioATok, prioBTok]) ∧
      splitLexer.lex "ifx".data = oneLexer.lex "ifx".data) := by
  refine ⟨⟨rfl, (C3_group_limit_refinement_amended.2.1 1 false 10 [prioATok, prioBTok]
    splitLexer.mres ?_ rfl).1⟩, ?_⟩
  · intro t ht
    rcases List.mem_cons.mp ht with rfl | h2
    · rfl
    · rcases List.mem_cons.mp h2 with rfl | h3
      · rfl
      · exact absurd h3 (List.not_mem_nil t)
  refine C3_group_limit_refinement_amended.2.2 splitLexer oneLexer "ifx".data rfl rfl rfl ?_ ?_ rfl
  · intro m hm
    rcases List.mem_cons.mp hm with rfl | hm2
    · rfl
    · rcases List.mem_cons.mp hm2 with rfl | hm3
      · rfl
      · exact absurd hm3 (List.not_mem_nil m)
  · intro m hm
    rcases List.mem_cons.mp hm with rfl | hm2
    · rfl
    · exact absurd hm2 (List.not_mem_nil m)

/-! ## Claim C1 — priority beats match length -/

/-- C1: within the alternation order, the first alternative that matches
at the current offset wins regardless of how long any later alternative's
match would be: matcher lists scan their concatenated alternatives in
order, a matching head alternative settles the result with its own name
and length, a non-matching head passes to the rest, and the construction
sort puts a strictly higher-priority token before a lower-priority one.
Concretely, with `A` (priority 10, matching `"if"`) and `B` (priority 5,
matching `"ifx"`), lexing `"ifx"` emits `A` with value `"if"`, not the
longer `B`. -/
theorem C1_priority_over_length :
    (∀ (mres : List CompiledMatcher) (s : Text) (pos : Nat),
       (∀ m ∈ mres, m.match_whole = false) →
       matchMres mres s pos = matchAlts false ((mres.map (·.alts)).flatten) s pos) ∧
    (∀ (t : TokenDef) (ts : List TokenDef) (s : Text) (pos n : Nat),
       altMatch false t s pos = some n →
       matchAlts false (t :: ts) s pos = some (t.name, n)) ∧
    (∀ (t : TokenDef) (ts : List TokenDef) (s : Text) (pos : Nat),
       altMatch false t s pos = none →
       matchAlts false (t :: ts) s pos = matchAlts false ts s pos) ∧
    (∀ a b : TokenDef, b.priority < a.priority → keyLeB a b = true ∧ keyLeB b a = false) ∧
    (mkLexer 100 10 [prioBTok, prioATok] [] = some oneLexer ∧
      oneLexer.lex "ifx".data =
        some ([⟨"A", "if".data, 0, 1, 0⟩], some ⟨2, 1, 2, ['x']⟩)) := by
  refine ⟨fun mres s pos h => matchMres_flatten false mres s pos h, ?_, ?_, ?_, rfl, by decide⟩
  · intro t ts s pos n h
    simp only [matchAlts, h]
  · intro t ts s pos h
    simp only [matchAlts, h]
  · intro a b h
    constructor
    · unfold keyLeB
      rw [if_pos (ne_of_gt h)]
      exact decide_eq_true h
    · unfold keyLeB
      rw [if_pos (Ne.symm (ne_of_gt h))]
      exact decide_eq_false (lt_asymm h)

/-- Witness for C1 at the concrete scenario: `A` matches `"ifx"` at offset
0 with length 2 and therefore wins the alternation, the flattening law
applies to the compiled lexer, and priority 10 sorts strictly before
priority 5. -/
theorem C1_priority_over_length_witness :
    matchAlts false [prioATok, prioBTok] "ifx".data 0 = some ("A", 2) ∧
    matchMres oneLexer.mres "ifx".data 0 =
      matchAlts false ((oneLexer.mres.map (·.alts)).flatten) "ifx".data 0 ∧
    (keyLeB prioATok prioBTok = true ∧ keyLeB prioBTok prioATok = false) := by
  refine ⟨C1_priority_over_length.2.1 prioATok [prioBTok] "ifx".data 0 2 rfl,
    C1_priority_over_length.1 oneLexer.mres "ifx".data 0 ?_,
    C1_priority_over_length.2.2.2.1 prioATok prioBTok (by decide)⟩
  intro m hm
  rcases List.mem_cons.mp hm with rfl | hm2
  · rfl
  · exact absurd hm2 (List.not_mem_nil m)

/-! ## Claim C2 — literal ("unless") disambiguation -/

/-- A `match_whole` alternation over literal tokens finds the first
literal whose anchored probe accepts the text: Python's `$` accepts the
exact value and also the value followed by one trailing newline. -/
theorem matchAlts_whole_lits : ∀ (strs : List TokenDef) (v : Text),
    (∀ st ∈ strs, st.pattern.isStr = true) →
    matchAlts true strs v 0 =
      (strs.find? fun st => v == st.pattern.value || v == st.pattern.value ++ ['\n']).map
        fun st => (st.name, st.pattern.value.length) := by
  intro strs
  induction strs with
  | nil => intro v _; rfl
  | cons t ts ih =>
    intro v h
    have ht := h t (List.mem_cons_self t ts)
    have hts : ∀ st ∈ ts, st.pattern.isStr = true := fun st hs => h st (List.mem_cons_of_mem t hs)
    cases hp : t.pattern with
    | pre v2 fl mn mx g sem => rw [hp] at ht; simp [Pattern.isStr] at ht
    | pstr val fl =>
      have hval : t.pattern.value = val := by rw [hp]; rfl
      by_cases hc : (v == t.pattern.value || v == t.pattern.value ++ ['\n']) = true
      · have hcv : (v == val || v == val ++ ['\n']) = true := by rw [← hval]; exact hc
        have h1 : altMatch true t v 0 = some val.length := by
          show t.pattern.matchWholeAt (v.drop 0) = some val.length
          rw [hp, List.drop_zero]
          show (if (v == val || v == val ++ ['\n']) = true then some val.length else none) =
            some val.length
          rw [if_pos hcv]
        have h2 : (t :: ts).find?
            (fun st => v == st.pattern.value || v == st.pattern.value ++ ['\n']) = some t :=
          List.find?_cons_of_pos ts hc
        simp only [matchAlts, h1, h2, Option.map_some']
        rw [hval]
      · have hcv : ¬((v == val || v == val ++ ['\n']) = true) := by rw [← hval]; exact hc
        have h1 : altMatch true t v 0 = none := by
          show t.pattern.matchWholeAt (v.drop 0) = none
          rw [hp, List.drop_zero]
          show (if (v == val || v == val ++ ['\n']) = true then some val.length else none) = none
          rw [if_neg hcv]
        have h2 : (t :: ts).find?
            (fun st => v == st.pattern.value || v == st.pattern.value ++ ['\n']) =
            ts.find? (fun st => v == st.pattern.value || v == st.pattern.value ++ ['\n']) :=
          List.find?_cons_of_neg ts hc
        simp only [matchAlts, h1, h2]
        exact ih v hts

/-- A literal pattern's source carries no capture groups. -/
theorem isStr_groups (p : Pattern) (h : p.isStr = true) : p.groups = 0 := by
  cases p with
  | pstr v f => rfl
  | pre v f mn mx g sem => simp [Pattern.isStr] at h

/-- `unless_callback` over the `match_whole` matchers built from a literal
list reclassifies exactly per the first literal whose anchored probe
accepts the token's value. -/
theorem unless_callback_spec (ceil fuel : Nat) (strs : List TokenDef)
    (mres : List CompiledMatcher) (t : Token)
    (hb : build_mres ceil true fuel strs = some mres)
    (hs : ∀ st ∈ strs, st.pattern.isStr = true) :
    unless_callback mres t =
      match strs.find? (fun st => t.value == st.pattern.value ||
          t.value == st.pattern.value ++ ['\n']) with
      | some st => { t with type := st.name }
      | none => t := by
  have hb2 : _build_mres ceil true fuel strs strs.length [] = some mres := hb
  have hflat : (mres.map (·.alts)).flatten = strs := by
    have := _build_mres_full fuel ceil true strs strs.length [] mres
      (fun st hst => isStr_groups st.pattern (hs st hst)) (Or.inl rfl) hb2
    simpa using this
  have hmw : ∀ m ∈ mres, m.match_whole = true :=
    _build_mres_mw fuel ceil true strs strs.length [] mres
      (fun m hm => absurd hm (List.not_mem_nil m)) hb2
  unfold unless_callback
  rw [matchMres_flatten true mres t.value 0 hmw, hflat, matchAlts_whole_lits strs t.value hs]
  cases strs.find? (fun st => t.value == st.pattern.value ||
      t.value == st.pattern.value ++ ['\n']) <;> rfl

/-- The lexer built from `{IDENT = [a-z]+, IF = "if"}`: `IF` is embedded
into `IDENT` and survives only inside `IDENT`'s disambiguation callback. -/
def identIfLexer : Lexer :=
  ⟨[identTok], [⟨[identTok], false⟩], [("IDENT", [⟨[ifTok], true⟩])], [], []⟩

/-- The lexer built from `{R = [x\n]+ (priority 10), L1 = "x" (priority 5),
L2 = "x\n" (priority 0)}`: both literals are embedded into `R`'s callback,
ordered `L1` before `L2` by the construction sort. -/
def xLexer : Lexer :=
  ⟨[xnlTok], [⟨[xnlTok], false⟩], [("R", [⟨[l1Tok, l2Tok], true⟩])], ["R", "L2"], []⟩

/-- C2 is false as stated in its general sentence: lexing `"x\n"` with the
lexer above produces match text `"x\n"`, which is exactly the full value of
the literal `L2` — and `L2` is accepted in whole by `R` (`R`'s preferred
match of `"x\n"` covers all of it, so `L2` entered `R`'s disambiguation
set) — yet the emitted token is reclassified to `L1`, not to `L2`: the
whole-match probe is the engine's `$` anchor, which lets the
earlier-sorted literal `L1 = "x"` accept `"x\n"` (its value plus a
trailing newline) first. -/
theorem C2_counterexample :
    mkLexer 100 10 [xnlTok, l1Tok, l2Tok] [] = some xLexer ∧
    xLexer.lex ['x', '\n'] = some ([⟨"L1", ['x', '\n'], 0, 1, 0⟩], none) ∧
    l2Tok.pattern.value = ['x', '\n'] ∧
    xnlTok.pattern.matchAt l2Tok.pattern.value 0 = some 2 ∧
    ("L1" : String) ≠ "L2" :=
  ⟨rfl, by decide, rfl, rfl, by decide⟩

/-- C2 (amended): whenever a regex token's emitted match text is accepted
by the anchored whole-match probe of some literal in its disambiguation
set, the token is reclassified to the type of the first such literal in
sorted order, where the probe accepts the literal's exact value and also
the literal's value followed by one trailing newline (the engine's `$`
anchor); in the absence of such a trailing-newline collision this is
precisely the literal whose full value equals the match text.  Concretely,
with `IDENT = [a-z]+` and `IF = "if"` (both priority 0), tokenizing
`"if"` yields exactly one token of type `IF` and tokenizing `"ifx"`
yields exactly one token of type `IDENT` with value `"ifx"`. -/
theorem C2_literal_disambiguation_amended :
    (∀ (ceil fuel : Nat) (strs : List TokenDef) (mres : List CompiledMatcher) (t : Token),
       build_mres ceil true fuel strs = some mres →
       (∀ st ∈ strs, st.pattern.isStr = true) →
       unless_callback mres t =
         match strs.find? (fun st => t.value == st.pattern.value ||
             t.value == st.pattern.value ++ ['\n']) with
         | some st => { t with type := st.name }
         | none => t) ∧
    (mkLexer 100 10 [identTok, ifTok] [] = some identIfLexer ∧
      identIfLexer.lex "if".data = some ([⟨"IF", "if".data, 0, 1, 0⟩], none) ∧
      identIfLexer.lex "ifx".data = some ([⟨"IDENT", "ifx".data, 0, 1, 0⟩], none)) :=
  ⟨unless_callback_spec, rfl, by decide, by decide⟩

/-- Witness for the amended C2: applying the callback characterization to
the concrete `IF` literal set reclassifies the matched `"if"` from
`IDENT` to `IF`. -/
theorem C2_literal_disambiguation_amended_witness :
    unless_callback [⟨[ifTok], true⟩] ⟨"IDENT", "if".data, 0, 1, 0⟩ =
      ⟨"IF", "if".data, 0, 1, 0⟩ := by
  have h := C2_literal_disambiguation_amended.1 100 10 [ifTok] [⟨[ifTok], true⟩]
    ⟨"IDENT", "if".data, 0, 1, 0⟩ rfl ?_
  · exact h.trans (by rfl)
  · intro st hst
    rcases List.mem_cons.mp hst with rfl | h2
    · rfl
    · exact absurd h2 (List.not_mem_nil st)


/-! ## Claim C6 — lexical-error characterization -/

/-- Lexer over `{IDENT = [a-z]+}` alone. -/
def identLexer : Lexer := ⟨[identTok], [⟨[identTok], false⟩], [], [], []⟩

/-- Lexer over the empty token list: no compiled matchers at all. -/
def emptyLexer : Lexer := ⟨[], [], [], [], []⟩

/-- C6: a streaming step raises `UnexpectedInput` exactly when no compiled
matcher of the active lexer matches at the current offset while the offset
is strictly before the end of the buffer, and the raised error carries the
current position, line and column (with the five-character context
window).  Concretely: `"1+2"` against `{IDENT = [a-z]+}` errors at offset
0, line 1, column 0; the empty token list compiles to an empty matcher
list which errors immediately on every non-empty input and yields the
empty sequence on empty input. -/
theorem C6_lexical_error :
    (∀ (lexer : Lexer) (nl ig : List String) (stream : Text) (lc : LineCounter),
       lexStep lexer nl ig stream lc =
           .error ⟨lc.char_pos, lc.line, lc.column, (stream.drop lc.char_pos).take 5⟩ ↔
         (matchMres lexer.mres stream lc.char_pos = none ∧ lc.char_pos < stream.length)) ∧
    (∀ (lexer : Lexer) (nl ig : List String) (stream : Text) (lc : LineCounter)
       (e : UnexpectedInput), lexStep lexer nl ig stream lc = .error e →
       e.lex_pos = lc.char_pos ∧ e.line = lc.line ∧ e.column = lc.column) ∧
    (mkLexer 100 10 [identTok] [] = some identLexer ∧
      identLexer.lex "1+2".data = some ([], some ⟨0, 1, 0, "1+2".data⟩)) ∧
    (mkLexer 100 10 [] [] = some emptyLexer ∧
      (∀ stream : Text, stream ≠ [] →
        emptyLexer.lex stream = some ([], some ⟨0, 1, 0, stream.take 5⟩)) ∧
      emptyLexer.lex [] = some ([], none)) := by
  refine ⟨?_, ?_, ⟨rfl, by decide⟩, rfl, ?_, rfl⟩
  · intro lexer nl ig stream lc
    unfold lexStep
    cases h : matchMres lexer.mres stream lc.char_pos with
    | some r =>
      obtain ⟨ty, n⟩ := r
      constructor
      · intro hcontra
        split at hcontra
        · rename_i ty2 n2 heq
          split at hcontra <;> simp at hcontra
        · rename_i heq
          exact absurd heq (by simp)
      · rintro ⟨h1, -⟩
        exact absurd h1 (by simp)
    | none =>
      by_cases hlt : lc.char_pos < stream.length <;> simp [hlt]
  · intro lexer nl ig stream lc e herr
    unfold lexStep at herr
    cases h : matchMres lexer.mres stream lc.char_pos with
    | some r =>
      obtain ⟨ty, n⟩ := r
      rw [h] at herr
      split at herr
      · rename_i ty2 n2 heq
        split at herr <;> simp at herr
      · rename_i heq
        exact absurd heq (by simp)
    | none =>
      rw [h] at herr
      by_cases hlt : lc.char_pos < stream.length
      · rw [if_pos hlt] at herr
        cases herr
        exact ⟨rfl, rfl, rfl⟩
      · rw [if_neg hlt] at herr
        exact absurd herr (by simp)
  · intro stream hne
    cases stream with
    | nil => exact absurd rfl hne
    | cons c cs =>
      show lexLoop (fun _ => emptyLexer) [] [] (c :: cs) (cs.length + 1 + 1) lc0 0 [] = _
      have hstep : lexStep emptyLexer [] [] (c :: cs) lc0 =
          .error ⟨0, 1, 0, (c :: cs).take 5⟩ := by
        show (if lc0.char_pos < (c :: cs).length then
            StepResult.error ⟨lc0.char_pos, lc0.line, lc0.column,
              (((c :: cs).drop lc0.char_pos).take 5)⟩ else .done) = _
        rw [if_pos (by simp [lc0])]
        rfl
      simp only [lexLoop, hstep]

/-- Witness for C6: the step-level characterization applied to the
concrete `"1+2"` scenario, and the empty-matcher error applied to the
concrete non-empty input `"x"`. -/
theorem C6_lexical_error_witness :
    lexStep identLexer [] [] "1+2".data lc0 = .error ⟨0, 1, 0, "1+2".data⟩ ∧
    emptyLexer.lex ['x'] = some ([], some ⟨0, 1, 0, ['x']⟩) := by
  constructor
  · exact (C6_lexical_error.1 identLexer [] [] "1+2".data lc0).mpr ⟨by decide, by decide⟩
  · exact C6_lexical_error.2.2.2.2.1 ['x'] (by decide)

/-! ## Claim C7 — progress and termination -/

/-- The semantic progress condition of the claim for one compiled matcher:
no alternative matches the empty string (the `min_width ≥ 1` contract),
and the engine never matches past the end of the buffer. -/
def matcherProgress (m : CompiledMatcher) : Prop :=
  ∀ t ∈ m.alts, ∀ (s : Text) (pos n : Nat),
    altMatch m.match_whole t s pos = some n → 1 ≤ n ∧ pos + n ≤ s.length

theorem matchAlts_some_mem : ∀ (mw : Bool) (alts : List TokenDef) (s : Text) (pos : Nat)
    (ty : String) (n : Nat), matchAlts mw alts s pos = some (ty, n) →
    ∃ t ∈ alts, altMatch mw t s pos = some n ∧ ty = t.name := by
  intro mw alts
  induction alts with
  | nil => intro s pos ty n h; exact absurd h (by simp [matchAlts])
  | cons t ts ih =>
    intro s pos ty n h
    rw [matchAlts] at h
    cases h2 : altMatch mw t s pos with
    | some m2 =>
      rw [h2] at h
      cases h
      exact ⟨t, List.mem_cons_self t ts, h2, rfl⟩
    | none =>
      rw [h2] at h
      obtain ⟨u, hu, hh⟩ := ih s pos ty n h
      exact ⟨u, List.mem_cons_of_mem t hu, hh⟩

theorem matchMres_some : ∀ (mres : List CompiledMatcher) (s : Text) (pos : Nat)
    (r : String × Nat), matchMres mres s pos = some r →
    ∃ m ∈ mres, m.matchAt s pos = some r := by
  intro mres
  induction mres with
  | nil => intro s pos r h; exact absurd h (by simp [matchMres])
  | cons m ms ih =>
    intro s pos r h
    rw [matchMres] at h
    cases h2 : m.matchAt s pos with
    | some r2 =>
      rw [h2] at h
      cases h
      exact ⟨m, List.mem_cons_self m ms, h2⟩
    | none =>
      rw [h2] at h
      obtain ⟨m2, hm2, hh⟩ := ih s pos r h
      exact ⟨m2, List.mem_cons_of_mem m hm2, hh⟩

/-- A successful match against matchers that all satisfy the progress
condition consumes at least one character and stays inside the buffer. -/
theorem matchMres_progress (mres : List CompiledMatcher) (s : Text) (pos : Nat)
    (ty : String) (n : Nat) (hp : ∀ m ∈ mres, matcherProgress m)
    (h : matchMres mres s pos = some (ty, n)) : 1 ≤ n ∧ pos + n ≤ s.length := by
  obtain ⟨m, hm, hmm⟩ := matchMres_some mres s pos (ty, n) h
  obtain ⟨t, ht, halt, -⟩ := matchAlts_some_mem m.match_whole m.alts s pos ty n hmm
  exact hp m hm t ht s pos n halt

theorem feed_char_pos (lc : LineCounter) (v : Text) (b : Bool) :
    (lc.feed v b).char_pos = lc.char_pos + v.length := rfl

theorem unless_callback_fields (m : List CompiledMatcher) (t : Token) :
    (unless_callback m t).value = t.value ∧
      (unless_callback m t).pos_in_stream = t.pos_in_stream := by
  unfold unless_callback
  cases h : matchMres m t.value 0 with
  | none => exact ⟨rfl, rfl⟩
  | some r =>
    obtain ⟨a, b⟩ := r
    exact ⟨rfl, rfl⟩

/-- Inversion of a `skip` step: an ignored token matched at the current
offset and the counter advanced by the matched text. -/
theorem lexStep_skip_inv (lexer : Lexer) (nl ig : List String) (stream : Text)
    (lc lc2 : LineCounter) (h : lexStep lexer nl ig stream lc = .skip lc2) :
    ∃ ty n, matchMres lexer.mres stream lc.char_pos = some (ty, n) ∧
      lc2.char_pos = lc.char_pos + ((stream.drop lc.char_pos).take n).length := by
  unfold lexStep at h
  split at h
  · rename_i ty n heq
    split at h
    · cases h
      exact ⟨ty, n, heq, rfl⟩
    · simp at h
  · rename_i heq
    split at h <;> simp at h

/-- Inversion of an `emit` step: a non-ignored token matched at the
current offset; the yielded token snapshots the pre-advance position and
carries the matched text as value (the disambiguation callback can only
change its type), and the counter advanced by the matched text. -/
theorem lexStep_emit_inv (lexer : Lexer) (nl ig : List String) (stream : Text)
    (lc lc2 : LineCounter) (t : Token) (h : lexStep lexer nl ig stream lc = .emit t lc2) :
    ∃ ty n, matchMres lexer.mres stream lc.char_pos = some (ty, n) ∧
      t.value = (stream.drop lc.char_pos).take n ∧
      t.pos_in_stream = lc.char_pos ∧
      lc2.char_pos = lc.char_pos + ((stream.drop lc.char_pos).take n).length := by
  unfold lexStep at h
  split at h
  · rename_i ty n heq
    split at h
    · simp at h
    · cases h
      refine ⟨ty, n, heq, ?_, ?_, rfl⟩
      · cases hcb : lexer.callback.lookup ty with
        | none => rfl
        | some m => exact (unless_callback_fields m _).1
      · cases hcb : lexer.callback.lookup ty with
        | none => rfl
        | some m => exact (unless_callback_fields m _).2
  · rename_i heq
    split at h <;> simp at h

/-- The fuelled loop terminates within `stream.length + 1` iterations when
every active matcher satisfies the progress condition, every token it
yields has a non-empty value, and the yielded positions strictly
increase. -/
theorem lexLoop_progress : ∀ (fuel : Nat) (g : Nat → Lexer) (nl ig : List String) (stream : Text)
    (lc : LineCounter) (k : Nat) (acc : List Token),
    (∀ j, ∀ m ∈ (g j).mres, matcherProgress m) →
    lc.char_pos ≤ stream.length →
    stream.length + 1 ≤ lc.char_pos + fuel →
    ∃ toks err, lexLoop g nl ig stream fuel lc k acc = some (toks, err) ∧
      ∃ new, toks = acc ++ new ∧
        (∀ t ∈ new, 1 ≤ t.value.length ∧ lc.char_pos ≤ t.pos_in_stream) ∧
        new.Pairwise (fun a b => a.pos_in_stream < b.pos_in_stream) := by
  intro fuel
  induction fuel with
  | zero => intro g nl ig stream lc k acc hprog hle hfuel; omega
  | succ fuel ih =>
    intro g nl ig stream lc k acc hprog hle hfuel
    cases hstep : lexStep (g k) nl ig stream lc with
    | done =>
      exact ⟨acc, none, by simp only [lexLoop, hstep], [], by simp, by simp, List.Pairwise.nil⟩
    | error e =>
      exact ⟨acc, some e, by simp only [lexLoop, hstep], [], by simp, by simp, List.Pairwise.nil⟩
    | skip lc2 =>
      obtain ⟨ty, n, hm, hpos⟩ := lexStep_skip_inv _ _ _ _ _ _ hstep
      obtain ⟨h1n, hbound⟩ := matchMres_progress _ _ _ _ _ (hprog k) hm
      have hlen : ((stream.drop lc.char_pos).take n).length = n := by
        simp only [List.length_take, List.length_drop]
        omega
      rw [hlen] at hpos
      obtain ⟨toks, err, heq, new, hnew, hp2, hpair⟩ :=
        ih g nl ig stream lc2 k acc hprog (by omega) (by omega)
      refine ⟨toks, err, ?_, new, hnew, ?_, hpair⟩
      · simp only [lexLoop, hstep]
        exact heq
      · intro t ht
        obtain ⟨ha, hb⟩ := hp2 t ht
        exact ⟨ha, by omega⟩
    | emit t lc2 =>
      obtain ⟨ty, n, hm, hval, htpos, hpos⟩ := lexStep_emit_inv _ _ _ _ _ _ _ hstep
      obtain ⟨h1n, hbound⟩ := matchMres_progress _ _ _ _ _ (hprog k) hm
      have hlen : ((stream.drop lc.char_pos).take n).length = n := by
        simp only [List.length_take, List.length_drop]
        omega
      rw [hlen] at hpos
      have hvlen : 1 ≤ t.value.length := by
        rw [hval, hlen]
        exact h1n
      obtain ⟨toks, err, heq, new, hnew, hp2, hpair⟩ :=
        ih g nl ig stream lc2 (k + 1) (acc ++ [t]) hprog (by omega) (by omega)
      refine ⟨toks, err, ?_, t :: new, ?_, ?_, ?_⟩
      · simp only [lexLoop, hstep]
        exact heq
      · rw [hnew, List.append_assoc]
        rfl
      · intro u hu
        rcases List.mem_cons.mp hu with rfl | hu2
        · exact ⟨hvlen, le_of_eq htpos.symm⟩
        · obtain ⟨ha, hb⟩ := hp2 u hu2
          exact ⟨ha, by omega⟩
      · refine List.Pairwise.cons ?_ hpair
        intro u hu
        obtain ⟨-, hb⟩ := hp2 u hu
        omega

/-- C7: under the claimed precondition — every token pattern declares
`min_width ≥ 1` and no compiled pattern matches the empty string (nor
past the buffer) — every emitted token has a value of length at least 1,
the emitted stream offsets strictly increase, and tokenizing any finite
input terminates within the `stream.length + 1` fuel budget, in `DONE` or
in a lexical error. -/
theorem C7_progress_termination (lx : Lexer) (stream : Text)
    (hminw : ∀ td ∈ lx.tokens, 1 ≤ td.pattern.min_width)
    (hprog : ∀ m ∈ lx.mres, matcherProgress m) :
    ∃ toks err, lx.lex stream = some (toks, err) ∧
      (∀ t ∈ toks, 1 ≤ t.value.length) ∧
      toks.Pairwise (fun a b => a.pos_in_stream < b.pos_in_stream) := by
  obtain ⟨toks, err, heq, new, hnew, hp2, hpair⟩ :=
    lexLoop_progress (stream.length + 1) (fun _ => lx) lx.newline_types lx.ignore_types stream
      lc0 0 [] (fun _ => hprog) (by simp [lc0]) (by simp [lc0])
  refine ⟨toks, err, heq, ?_, ?_⟩
  · intro t ht
    rw [hnew] at ht
    exact (hp2 t (by simpa using ht)).1
  · rw [hnew]
    simpa using hpair

/-- Literal alternatives satisfy the progress condition: a non-empty
literal consumes its own length and must fit inside the buffer to match. -/
theorem pstr_matcherProgress (alts : List TokenDef)
    (h : ∀ t ∈ alts, ∃ v fl, t.pattern = .pstr v fl ∧ v ≠ []) :
    matcherProgress ⟨alts, false⟩ := by
  intro t ht s pos n hm
  obtain ⟨v, fl, hp, hv⟩ := h t ht
  have hm2 : t.pattern.matchAt s pos = some n := hm
  rw [hp] at hm2
  have hm3 : (if v.isPrefixOf (s.drop pos) = true then some v.length else none) = some n := hm2
  split at hm3
  · rename_i hpre
    cases hm3
    have hlen := (List.isPrefixOf_iff_prefix.mp hpre).length_le
    rw [List.length_drop] at hlen
    have hv2 : 0 < v.length := List.length_pos.mpr hv
    exact ⟨hv2, by omega⟩
  · exact absurd hm3 (by simp)

/-- Lexer over the single literal token `A = "a"`. -/
def aLexer : Lexer := ⟨[litATok], [⟨[litATok], false⟩], [], [], []⟩

/-- Witness for C7 at the single-literal lexer on input `"aa"`. -/
theorem C7_progress_termination_witness :
    ∃ toks err, aLexer.lex ['a', 'a'] = some (toks, err) ∧
      (∀ t ∈ toks, 1 ≤ t.value.length) ∧
      toks.Pairwise (fun a b => a.pos_in_stream < b.pos_in_stream) := by
  refine C7_progress_termination aLexer ['a', 'a'] ?_ ?_
  · intro td htd
    rcases List.mem_cons.mp htd with rfl | h2
    · exact le_refl 1
    · exact absurd h2 (List.not_mem_nil td)
  · intro m hm
    rcases List.mem_cons.mp hm with rfl | h2
    · refine pstr_matcherProgress [litATok] ?_
      intro t ht
      rcases List.mem_cons.mp ht with rfl | h3
      · exact ⟨['a'], [], rfl, by simp⟩
      · exact absurd h3 (List.not_mem_nil t)
    · exact absurd h2 (List.not_mem_nil m)

/-! ## Claim C8 — contextual state switching -/

/-- The loop only ever appends to its accumulator. -/
theorem lexLoop_acc : ∀ (fuel : Nat) (g : Nat → Lexer) (nl ig : List String) (stream : Text)
    (lc : LineCounter) (k : Nat) (acc toks : List Token) (err : Option UnexpectedInput),
    lexLoop g nl ig stream fuel lc k acc = some (toks, err) →
    ∃ new, toks = acc ++ new := by
  intro fuel
  induction fuel with
  | zero => intro g nl ig stream lc k acc toks err h; exact absurd h (by simp [lexLoop])
  | succ fuel ih =>
    intro g nl ig stream lc k acc toks err h
    rw [lexLoop] at h
    cases hstep : lexStep (g k) nl ig stream lc with
    | emit t lc2 =>
      rw [hstep] at h
      obtain ⟨new, hnew⟩ := ih g nl ig stream lc2 (k + 1) (acc ++ [t]) toks err h
      exact ⟨[t] ++ new, by rw [hnew, List.append_assoc]⟩
    | skip lc2 =>
      rw [hstep] at h
      exact ih g nl ig stream lc2 k acc toks err h
    | error e =>
      rw [hstep] at h
      cases h
      exact ⟨[], by simp⟩
    | done =>
      rw [hstep] at h
      cases h
      exact ⟨[], by simp⟩

/-- Lexer over the single literal token `B = "b"`. -/
def bLexer : Lexer := ⟨[litBTok], [⟨[litBTok], false⟩], [], [], []⟩

/-- The root lexer over `{A, B}` (supplies the session's newline/ignore
configuration). -/
def abRootLexer : Lexer := ⟨[litATok, litBTok], [⟨[litATok, litBTok], false⟩], [], [], []⟩

/-- State table of the scenario: state 1 (`S1`) accepts `{A}`, any other
state (`S2`) accepts `{B}`. -/
def ctxLexers : Nat → Lexer := fun s => if s == 1 then aLexer else bLexer

/-- The consumer that never calls `set_parser_state`. -/
def stayStates : Nat → Nat := fun _ => 1

/-- The consumer that calls `set_parser_state S2` after the first token. -/
def switchStates : Nat → Nat := fun k => if k == 0 then 1 else 2

/-- C8: the streaming loop re-reads the active lexer from the current
state before each match attempt, and only causally: the produced output
depends on the state function exactly at the indices consulted up to and
including the final match attempt, so a state change between two produced
tokens takes effect for the very next match and never retroactively.
Concretely, with `S1` accepting `{A}` and `S2` accepting `{B}` on input
`"ab"`: staying in `S1` yields `A` and then fails on `"b"`, while
switching to `S2` after the first token yields `A` then `B` with no
error. -/
theorem C8_contextual_switching :
    (∀ (fuel : Nat) (g₁ g₂ : Nat → Lexer) (nl ig : List String) (stream : Text)
       (lc : LineCounter) (k : Nat) (acc toks : List Token) (err : Option UnexpectedInput),
       lexLoop g₁ nl ig stream fuel lc k acc = some (toks, err) →
       (∀ j, k ≤ j → j ≤ k + (toks.length - acc.length) → g₁ j = g₂ j) →
       lexLoop g₂ nl ig stream fuel lc k acc = some (toks, err)) ∧
    (mkLexer 100 10 [litATok] [] = some aLexer ∧
      mkLexer 100 10 [litBTok] [] = some bLexer ∧
      mkLexer 100 10 [litATok, litBTok] [] = some abRootLexer ∧
      contextual_lex ctxLexers abRootLexer stayStates "ab".data =
        some ([⟨"A", ['a'], 0, 1, 0⟩], some ⟨1, 1, 1, ['b']⟩) ∧
      contextual_lex ctxLexers abRootLexer switchStates "ab".data =
        some ([⟨"A", ['a'], 0, 1, 0⟩, ⟨"B", ['b'], 1, 1, 1⟩], none)) := by
  refine ⟨?_, rfl, rfl, rfl, by decide, by decide⟩
  intro fuel
  induction fuel with
  | zero => intro g₁ g₂ nl ig stream lc k acc toks err h _; exact absurd h (by simp [lexLoop])
  | succ fuel ih =>
    intro g₁ g₂ nl ig stream lc k acc toks err h hagree
    have hg : g₁ k = g₂ k := hagree k (le_refl k) (by omega)
    rw [lexLoop] at h ⊢
    rw [← hg]
    cases hstep : lexStep (g₁ k) nl ig stream lc with
    | emit t lc2 =>
      rw [hstep] at h
      obtain ⟨new, hnew⟩ := lexLoop_acc fuel g₁ nl ig stream lc2 (k + 1) (acc ++ [t]) toks err h
      have hlen : toks.length = acc.length + 1 + new.length := by
        rw [hnew]
        simp only [List.length_append, List.length_cons, List.length_nil]
      refine ih g₁ g₂ nl ig stream lc2 (k + 1) (acc ++ [t]) toks err h ?_
      intro j hj1 hj2
      refine hagree j (by omega) ?_
      simp only [List.length_append, List.length_cons, List.length_nil] at hj2
      omega
    | skip lc2 =>
      rw [hstep] at h
      exact ih g₁ g₂ nl ig stream lc2 k acc toks err h hagree
    | error e =>
      rw [hstep] at h
      exact h
    | done =>
      rw [hstep] at h
      exact h

/-- Witness for C8: changing the state function only at indices beyond
those consulted by the finished session (here, from index 3 on) leaves the
produced `A`-then-`B` output unchanged. -/
theorem C8_contextual_switching_witness :
    lexLoop (fun k => if 3 ≤ k then aLexer else ctxLexers (switchStates k))
      abRootLexer.newline_types abRootLexer.ignore_types "ab".data ("ab".data.length + 1)
      lc0 0 [] = some ([⟨"A", ['a'], 0, 1, 0⟩, ⟨"B", ['b'], 1, 1, 1⟩], none) := by
  refine C8_contextual_switching.1 ("ab".data.length + 1) (fun k => ctxLexers (switchStates k))
    (fun k => if 3 ≤ k then aLexer else ctxLexers (switchStates k))
    abRootLexer.newline_types abRootLexer.ignore_types "ab".data lc0 0 []
    [⟨"A", ['a'], 0, 1, 0⟩, ⟨"B", ['b'], 1, 1, 1⟩] none
    C8_contextual_switching.2.2.2.2.2 ?_
  intro j hj1 hj2
  simp only [List.length_cons, List.length_nil] at hj2
  show ctxLexers (switchStates j) = if 3 ≤ j then aLexer else ctxLexers (switchStates j)
  rw [if_neg (by omega)]

/-! ## Claim C9 — termination of the batch-halving compiler -/

/-- With the batch size driven to 0 the loop compiles an empty alternation
(which always succeeds), appends an empty matcher and recurses on the
unchanged non-empty token list: no fuel suffices, i.e. the Python loop
never terminates. -/
theorem build_mres_maxSize_zero : ∀ (ceil : Nat) (mw : Bool) (fuel : Nat) (t : TokenDef)
    (ts : List TokenDef) (acc : List CompiledMatcher),
    _build_mres ceil mw fuel (t :: ts) 0 acc = none := by
  intro ceil mw fuel
  induction fuel with
  | zero => intro t ts acc; rfl
  | succ fuel ih =>
    intro t ts acc
    rw [_build_mres, if_pos (show compileOk ceil ((t :: ts).take 0) = true from by
      simp [compileOk, groupCount]), List.drop_zero]
    exact ih t ts _

/-- If the head token alone does not compile under the ceiling, the run at
batch size 1 halves to 0 and (by `build_mres_maxSize_zero`) never
terminates, whatever the fuel. -/
theorem build_mres_stuck_single : ∀ (ceil : Nat) (mw : Bool) (fuel : Nat) (t : TokenDef)
    (ts : List TokenDef) (acc : List CompiledMatcher), compileOk ceil [t] = false →
    _build_mres ceil mw fuel (t :: ts) 1 acc = none := by
  intro ceil mw fuel t ts acc hc
  cases fuel with
  | zero => rfl
  | succ fuel =>
    rw [_build_mres, if_neg (show ¬compileOk ceil ((t :: ts).take 1) = true from by
      rw [show (t :: ts).take 1 = [t] from rfl, hc]; simp)]
    exact build_mres_maxSize_zero ceil mw fuel t ts []

/-- C9 is false as stated: with an engine ceiling of 100 and a single
token whose own pattern source already contains 100 capture groups (so
its wrapped batch of one needs 101), the bare pattern compiles during
sanitization, but `_build_mres` at batch size 1 never returns — there is
no minimum batch size of 1 in the code, `max_size` reaches 0 and the loop
repeats forever (even a fuel of 50 loop steps, far beyond the 3 a
one-token list legitimately needs, still yields no result, while the same
call under ceiling 101 returns).  The general no-fuel-suffices fact is
`build_mres_stuck_single`. -/
theorem C9_counterexample :
    compileOk 100 [hundredGroupsTok] = false ∧
    _build_mres 100 false 50 [hundredGroupsTok] 1 [] = none ∧
    (_build_mres 101 false 50 [hundredGroupsTok] 1 []).isSome = true :=
  ⟨rfl, rfl, rfl⟩

/-- C9 (amended): the recursive batch-halving compiler terminates for
every token list in which each single token compiles within the engine
ceiling — `tokens.length + maxSize` loop steps suffice — but the halving
is not bounded below by batch size 1: once the batch size reaches 0 the
loop never terminates on a non-empty token list, and it reaches 0
whenever compiling some single token's batch alone exceeds the ceiling. -/
theorem C9_build_mres_termination_amended :
    (∀ (fuel ceil : Nat) (mw : Bool) (tokens : List TokenDef) (maxSize : Nat)
       (acc : List CompiledMatcher),
       1 ≤ maxSize → tokens.length + maxSize < fuel →
       (∀ t ∈ tokens, compileOk ceil [t] = true) →
       ∃ r, _build_mres ceil mw fuel tokens maxSize acc = some r) ∧
    (∀ (ceil : Nat) (mw : Bool) (fuel : Nat) (t : TokenDef) (ts : List TokenDef)
       (acc : List CompiledMatcher), _build_mres ceil mw fuel (t :: ts) 0 acc = none) ∧
    (∀ (ceil : Nat) (mw : Bool) (fuel : Nat) (t : TokenDef) (ts : List TokenDef)
       (acc : List CompiledMatcher), compileOk ceil [t] = false →
       _build_mres ceil mw fuel (t :: ts) 1 acc = none) := by
  refine ⟨?_, build_mres_maxSize_zero, build_mres_stuck_single⟩
  intro fuel
  induction fuel with
  | zero => intro ceil mw tokens maxSize acc h1 h2 h3; omega
  | succ fuel ih =>
    intro ceil mw tokens maxSize acc h1 h2 h3
    match tokens with
    | [] => exact ⟨acc, rfl⟩
    | t :: ts =>
      cases hc : compileOk ceil ((t :: ts).take maxSize) with
      | true =>
        have hmeas : ((t :: ts).drop maxSize).length + maxSize < fuel := by
          have hld : ((t :: ts).drop maxSize).length = (t :: ts).length - maxSize :=
            List.length_drop maxSize (t :: ts)
          simp only [List.length_cons] at h2 hld
          omega
        obtain ⟨rest, hrest⟩ := ih ceil mw ((t :: ts).drop maxSize) maxSize
          (acc ++ [⟨(t :: ts).take maxSize, mw⟩]) h1 hmeas
          (fun u hu => h3 u (List.mem_of_mem_drop hu))
        refine ⟨rest, ?_⟩
        rw [_build_mres, if_pos hc]
        exact hrest
      | false =>
        have hms2 : 2 ≤ maxSize := by
          rcases Nat.lt_or_ge maxSize 2 with hlt | hge
          · exfalso
            have hms1 : maxSize = 1 := by omega
            rw [hms1, show (t :: ts).take 1 = [t] from rfl] at hc
            rw [h3 t (List.mem_cons_self t ts)] at hc
            simp at hc
          · exact hge
        obtain ⟨r, hr⟩ := ih ceil mw (t :: ts) (maxSize / 2) [] (by omega) (by
          simp only [List.length_cons] at h2 ⊢
          omega) h3
        refine ⟨r, ?_⟩
        rw [_build_mres, if_neg (by rw [hc]; simp)]
        exact hr

/-- Witness for the amended C9: the two-token list `{A, B}` compiles under
ceiling 100 within the stated step bound, and the 100-group token at
batch size 1 yields nothing at an arbitrary concrete fuel. -/
theorem C9_build_mres_termination_amended_witness :
    (∃ r, _build_mres 100 false 5 [prioATok, prioBTok] 2 [] = some r) ∧
    _build_mres 100 false 7 [hundredGroupsTok] 1 [] = none := by
  constructor
  · refine C9_build_mres_termination_amended.1 5 100 false [prioATok, prioBTok] 2 []
      (by omega) (by simp) ?_
    intro t ht
    rcases List.mem_cons.mp ht with rfl | h2
    · rfl
    · rcases List.mem_cons.mp h2 with rfl | h3
      · rfl
      · exact absurd h3 (List.not_mem_nil t)
  · exact C9_build_mres_termination_amended.2.2 100 false 7 hundredGroupsTok [] [] rfl

/-! ## Claim C5 — the newline-type heuristic under-approximates -/

/-- Lexer over `{WS = \s}` alone. -/
def wsLexer : Lexer := ⟨[wsTok], [⟨[wsTok], false⟩], [], [], []⟩

/-- Lexer over `{IDENT = [a-z]+, WS = \s}` with `WS` ignored. -/
def identWsLexer : Lexer :=
  ⟨[identTok, wsTok], [⟨[identTok, wsTok], false⟩], [], [], ["WS"]⟩

/-- C5 fails on the code: the pattern `\s` (source characters `\` `s`)
matches the newline character, yet `_regexp_has_newline` is `false` on its
source — no literal newline, no backslash-`n` pair, no `(?s)` — so `WS` is
omitted from `newline_types`.  The under-approximation is visible in the
output: lexing `"\na"` with `WS` ignored feeds the newline to the line
counter with `test_newline=False`, and the `a` token is reported at
line 1, column 1 instead of line 2, column 0. -/
theorem C5_newline_types_code_bug :
    wsTok.pattern.matchAt ['\n'] 0 = some 1 ∧
    regexp_has_newline wsTok.pattern.to_regexp = false ∧
    mkLexer 100 10 [wsTok] [] = some wsLexer ∧
    wsLexer.newline_types = [] ∧
    mkLexer 100 10 [identTok, wsTok] ["WS"] = some identWsLexer ∧
    identWsLexer.lex ['\n', 'a'] = some ([⟨"IDENT", ['a'], 1, 1, 1⟩], none) :=
  ⟨rfl, rfl, rfl, rfl, rfl, by decide⟩
